import Mathlib

/-!
# Verification of ansibullbot's caching and mirror-synchronization core

Shallow embedding of `ansibullbot/wrappers/ghapiwrapper.py` and
`ansibullbot/utils/git_tools.py`.  External collaborators (the HTTP layer,
the filesystem, the git subprocess runner, the sqlite metadata store and the
gzip-pickle helpers, which live outside the two source files) are modelled
as explicit environments / oracles passed to each function; the control flow
of the Python functions themselves is translated statement by statement.
-/

namespace Ansibullbot

/-! ## Python string primitives

Structurally recursive char-list implementations of the Python string
operations the source uses (`split`, `replace`, `lower`, `strip`,
`startswith`, `endswith`, `in`), so that concrete instances evaluate. -/

/-- Does `n` occur at the head of `h`? -/
def charsAtHead : List Char → List Char → Bool
  | [], _ => true
  | _ :: _, [] => false
  | a :: as, b :: bs => a == b && charsAtHead as bs

/-- Python's `n in h` on strings, as character-list containment. -/
def charsSub (n : List Char) : List Char → Bool
  | [] => n.isEmpty
  | c :: rest => charsAtHead n (c :: rest) || charsSub n rest

/-- Python `n in h` for strings. -/
def strIn (n h : String) : Bool := charsSub n.toList h.toList

/-- Python `s.split(c)` on a single-character separator. -/
def splitChar (c : Char) : List Char → List (List Char)
  | [] => [[]]
  | x :: xs =>
    match splitChar c xs with
    | [] => [[]]  -- unreachable: splitChar never returns []
    | y :: ys => if x == c then [] :: y :: ys else (x :: y) :: ys

/-- Python `s.split(c)` wrapped for `String`. -/
def pySplit (s : String) (c : Char) : List String :=
  (splitChar c s.toList).map String.mk

/-- One fuel-driven pass of Python `s.replace(n, r)` (left-to-right,
non-overlapping).  With fuel ≥ the list length this is exactly Python's
replace-all; the empty-pattern corner (never used by the source, which only
strips `'https://'` and context prefixes) returns the input unchanged. -/
def pyReplaceGo (n r : List Char) : Nat → List Char → List Char
  | _, [] => []
  | 0, l => l
  | fuel+1, x :: xs =>
    if charsAtHead n (x :: xs) && !n.isEmpty then
      r ++ pyReplaceGo n r fuel (List.drop (n.length - 1) xs)
    else x :: pyReplaceGo n r fuel xs

/-- Python `s.replace(n, r)`. -/
def pyReplace (s n r : String) : String :=
  String.mk (pyReplaceGo n.toList r.toList s.toList.length s.toList)

/-- Python `s.lower()` (ASCII case folding suffices for this code). -/
def pyLower (s : String) : String := String.mk (s.toList.map Char.toLower)

/-- Python `s.startswith(p)`. -/
def pyStarts (s p : String) : Bool := charsAtHead p.toList s.toList

/-- Python `s.endswith(p)`. -/
def pyEnds (s p : String) : Bool :=
  charsAtHead p.toList.reverse s.toList.reverse

/-- Python `s.strip()`. -/
def pyStrip (s : String) : String :=
  String.mk
    (((s.toList.dropWhile Char.isWhitespace).reverse.dropWhile
        Char.isWhitespace).reverse)

/-- Python `s.rstrip('/')`. -/
def pyRstripSlash (s : String) : String :=
  String.mk ((s.toList.reverse.dropWhile (· == '/')).reverse)

/-- A JSON value as produced by `requests.Response.json()`.  Objects are
modelled as ordered association lists, matching Python's insertion-ordered
dicts. -/
inductive Json where
  | null
  | bool (b : Bool)
  | num (n : Int)
  | str (s : String)
  | arr (xs : List Json)
  | obj (kvs : List (String × Json))
deriving Repr

/-- Python truthiness of a JSON value (`if data.get('message'):`). -/
def Json.truthy : Json → Bool
  | .null => false
  | .bool b => b
  | .num n => n != 0
  | .str s => s != ""
  | .arr xs => !xs.isEmpty
  | .obj kvs => !kvs.isEmpty

/-- `d.get(k)` on a Python dict: first binding of `k`, if any. -/
def lookupKV (kvs : List (String × Json)) (k : String) : Option Json :=
  (kvs.find? (fun kv => kv.1 == k)).map (·.2)

/-- `d[k] = v` on a Python dict: replace the existing binding in place,
else append at the end (insertion order). -/
def dictSet (kvs : List (String × Json)) (k : String) (v : Json) :
    List (String × Json) :=
  if kvs.any (fun kv => kv.1 == k) then
    kvs.map (fun kv => if kv.1 == k then (k, v) else kv)
  else
    kvs ++ [(k, v)]

/-- `a.update(b)` on Python dicts: fold `b`'s bindings into `a` in order. -/
def dictUpdate (a b : List (String × Json)) : List (String × Json) :=
  b.foldl (fun acc kv => dictSet acc kv.1 kv.2) a

/-- Python exceptions raised by the modelled code paths. -/
inductive PyErr where
  | rateLimit       -- ansibullbot.errors.RateLimitError
  | jsonDecode      -- json.loads failure (incl. UnicodeDecodeError on binary)
  | gzipError       -- gzip/json failure inside read_gzip_json_file
  | typeError
  | attributeError
  | indexError
  | fileNotFound
  | fuelOut         -- stands for non-termination of unbounded recursion
deriving Repr, DecidableEq

/-- Bytes of an on-disk cache file, abstracted by provenance: either the
gzip-compressed serialization of a JSON value (what `write_gzip_json_file`
produces, per §6 of the design: "compressed serialized bodies"), or raw text
abstracted by its JSON parse result. -/
inductive Blob where
  | gz (j : Json)
  | raw (parsed : Option Json)
deriving Repr

/-- Modelled from the spec: `read_gzip_json_file` (ansibullbot.utils.file_tools,
not in the sources under study) gunzips and deserializes a body written by
`write_gzip_json_file`; it fails on a file that is not gzipped JSON. -/
def read_gzip_json_file : Blob → Option Json
  | .gz j => some j
  | .raw _ => none

/-- Plain `json.loads(open(path).read())`: succeeds only on raw JSON text;
gzip-compressed bytes are not valid JSON text (nor valid UTF-8 in general),
so decoding them raises. -/
def plainJsonLoads : Blob → Option Json
  | .gz _ => none
  | .raw p => p

/-- The request headers this code constructs (`Accept`, `Authorization`,
optionally `If-None-Match`). -/
structure ReqHeaders where
  accept : String
  authorization : String
  ifNoneMatch : Option String
deriving Repr, DecidableEq

/-- The `HEADERS` accept-type list from ghapiwrapper.py. -/
def HEADERS : List String :=
  [ "application/json",
    "application/vnd.github.mockingbird-preview",
    "application/vnd.github.sailor-v-preview+json",
    "application/vnd.github.starfox-preview+json",
    "application/vnd.github.squirrel-girl-preview",
    "application/vnd.github.v3+json" ]

/-- The headers both `get_request` and `get_cached_request` start from. -/
def stdHeaders (token : String) : ReqHeaders :=
  { accept := String.intercalate "," HEADERS
    authorization := "Bearer " ++ token
    ifNoneMatch := none }

/-- An HTTP response as observed through `requests`: status code, JSON body,
the ETag response header (what the metadata store retains), and the
pagination `links['next']['url']` if present. -/
structure Resp where
  status : Nat
  body : Json
  etag : Option String
  next : Option String

/-- The network, as an oracle from URL and request headers to a response. -/
structure NetEnv where
  net : String → ReqHeaders → Resp

/-- One row of the sqlite request-metadata store.  Modelled from the spec:
`AnsibullbotDatabase` (ansibullbot.utils.sqlite_utils, not in the sources
under study) durably maps a URL to at least `{etag, cachePath}`;
`set_github_api_request_meta(url, rr.headers, cdf)` stores the response's
ETag header and the cache-file path under the URL key. -/
structure MetaRec where
  etag : Option String
  cachefile : String

/-- Process-wide cache state: the on-disk cache files and the metadata
store, both keyed by strings (file path resp. URL). -/
structure CacheSt where
  files : List (String × Blob)
  meta : List (String × MetaRec)

def fileRead (st : CacheSt) (p : String) : Option Blob :=
  (st.files.find? (fun kv => kv.1 == p)).map (·.2)

def fileExists (st : CacheSt) (p : String) : Bool :=
  (st.files.find? (fun kv => kv.1 == p)).isSome

def fileWrite (st : CacheSt) (p : String) (b : Blob) : CacheSt :=
  { st with files := (p, b) :: st.files.filter (fun kv => kv.1 != p) }

def metaGet (st : CacheSt) (url : String) : Option MetaRec :=
  (st.meta.find? (fun kv => kv.1 == url)).map (·.2)

def metaSet (st : CacheSt) (url : String) (m : MetaRec) : CacheSt :=
  { st with meta := (url, m) :: st.meta.filter (fun kv => kv.1 != url) }

/-- `etag and os.path.exists(cdf)`: truthiness of the stored etag. -/
def etagTruthy : Option String → Bool
  | some s => s != ""
  | none => false

/-- The rate-limit guard shared by `get_request` and `get_cached_request`:
`isinstance(data, dict) and data.get('message')` followed by
`data['message'].lower().startswith('api rate limit exceeded')`. -/
def rateLimitCheck (data : Json) : Except PyErr Unit :=
  match data with
  | .obj kvs =>
    match lookupKV kvs "message" with
    | some v =>
      if v.truthy then
        match v with
        | .str s =>
          if pyStarts (pyLower s) "api rate limit exceeded" then
            .error .rateLimit
          else .ok ()
        | _ => .error .typeError  -- `.lower()` on a non-string raises
      else .ok ()
    | none => .ok ()
  | _ => .ok ()

/-- `data += _data` where `data` is a Python list: extends with the elements
of any iterable (a list's elements, a dict's keys, a string's characters);
non-iterables raise TypeError. -/
def listAddElems (xs : List Json) (d : Json) : Except PyErr (List Json) :=
  match d with
  | .arr ys => .ok (xs ++ ys)
  | .obj kvs => .ok (xs ++ kvs.map (fun kv => Json.str kv.1))
  | .str s => .ok (xs ++ s.toList.map (fun c => Json.str (String.mk [c])))
  | _ => .error .typeError

/-- The pagination merge step.  `elifGuard = true` models `get_request`
(`elif isinstance(data, dict)`: a non-list non-dict first body keeps `data`
and drops the rest); `elifGuard = false` models `get_cached_request`
(bare `else: data.update(_data)`: a non-list non-dict body raises
AttributeError).  `dict.update` is modelled for mapping arguments (the only
shape these endpoints produce; a non-mapping argument is modelled as
TypeError, ignoring Python's acceptance of iterables of pairs). -/
def mergePages (elifGuard : Bool) (data d2 : Json) : Except PyErr Json :=
  match data with
  | .arr xs =>
    match listAddElems xs d2 with
    | .ok zs => .ok (.arr zs)
    | .error e => .error e
  | .obj kvs =>
    match d2 with
    | .obj kvs2 => .ok (.obj (dictUpdate kvs kvs2))
    | _ => .error .typeError
  | other => if elifGuard then .ok other else .error .attributeError

/-- A record of one outgoing HTTP request. -/
structure ReqLog where
  url : String
  hdrs : ReqHeaders
deriving Repr, DecidableEq

/-- `GithubWrapper.get_request`: unconditional GET with the standard
headers, rate-limit check, then recursive pagination follow.  The function
reads no cache state and writes none; the state is threaded through to make
that frame property a provable statement.  The recursion in the source has
no cycle guard and is bounded only by the `next` links; we embed it with
fuel, `fuelOut` standing for non-termination. -/
def get_request (env : NetEnv) (tok : String) :
    Nat → CacheSt → String → CacheSt × List ReqLog × Except PyErr Json
  | 0, st, _ => (st, [], .error .fuelOut)
  | fuel+1, st, url =>
    let hdrs := stdHeaders tok
    let rr := env.net url hdrs
    let data := rr.body
    match rateLimitCheck data with
    | .error e => (st, [⟨url, hdrs⟩], .error e)
    | .ok _ =>
      match rr.next with
      | none => (st, [⟨url, hdrs⟩], .ok data)
      | some nurl =>
        match get_request env tok fuel st nurl with
        | (st2, tr, .error e) => (st2, ⟨url, hdrs⟩ :: tr, .error e)
        | (st2, tr, .ok d2) =>
          match mergePages true data d2 with
          | .ok m => (st2, ⟨url, hdrs⟩ :: tr, .ok m)
          | .error e => (st2, ⟨url, hdrs⟩ :: tr, .error e)

/-- `cdf = os.path.join(self.cached_requests_dir, url.replace('https://', '') + '.json.gz')`. -/
def cdfPath (cacheDir url : String) : String :=
  cacheDir ++ "/" ++ (pyReplace url "https://" "") ++ ".json.gz"

/-- The headers of the (single) request `get_cached_request` issues itself:
the stored etag is attached as `If-None-Match` exactly when it is truthy and
the derived cache file exists. -/
def condHeader (tok : String) (st : CacheSt) (cacheDir url : String) : ReqHeaders :=
  let etag : Option String := (metaGet st url).bind (·.etag)
  { stdHeaders tok with
    ifNoneMatch :=
      if etagTruthy etag && fileExists st (cdfPath cacheDir url) then etag
      else none }

/-- The response `get_cached_request` receives for its own request. -/
def firstResp (env : NetEnv) (tok cacheDir : String) (st : CacheSt)
    (url : String) : Resp :=
  env.net url (condHeader tok st cacheDir url)

/-- `GithubWrapper.get_cached_request`: sqlite+disk cached conditional GET.
Follows the source line by line: commits special case, metadata lookup,
conditional `If-None-Match`, 304 handling via plain `json.loads` of the
cache file, rate-limit check, gzip write, metadata update, pagination via
`get_request`. -/
def get_cached_request (env : NetEnv) (tok cacheDir : String) (fuel : Nat)
    (st : CacheSt) (url : String) : CacheSt × List ReqLog × Except PyErr Json :=
  let parts := pySplit url '/'
  let cdf := cdfPath cacheDir url
  if parts.length < 2 then (st, [], .error .indexError)  -- url_parts[-2]
  else if parts[parts.length - 2]! == "commits" && fileExists st cdf then
    -- commits are static and can always be used from cache
    match fileRead st cdf with
    | some b =>
      match read_gzip_json_file b with
      | some j => (st, [], .ok j)
      | none => (st, [], .error .gzipError)
    | none => (st, [], .error .fileNotFound)
  else
    let hdrs : ReqHeaders := condHeader tok st cacheDir url
    let rr := firstResp env tok cacheDir st url
    let log0 : List ReqLog := [⟨url, hdrs⟩]
    let step : Except PyErr (Json × CacheSt) :=
      if rr.status == 304 then
        -- not modified: `data = json.loads(open(cdf).read())`
        match fileRead st cdf with
        | none => .error .fileNotFound
        | some b =>
          match plainJsonLoads b with
          | some j => .ok (j, st)
          | none => .error .jsonDecode
      else
        let data := rr.body
        match rateLimitCheck data with
        | .error e => .error e
        | .ok _ => .ok (data, fileWrite st cdf (.gz data))  -- write_gzip_json_file
    match step with
    | .error e => (st, log0, .error e)
    | .ok (data, st1) =>
      let st2 := metaSet st1 url ⟨rr.etag, cdf⟩  -- ADB.set_github_api_request_meta
      match rr.next with
      | none => (st2, log0, .ok data)
      | some nurl =>
        match get_request env tok fuel st2 nurl with
        | (st3, tr, .error e) => (st3, log0 ++ tr, .error e)
        | (st3, tr, .ok d2) =>
          match mergePages false data d2 with
          | .ok m => (st3, log0 ++ tr, .ok m)
          | .error e => (st3, log0 ++ tr, .error e)

/-! ## Pagination chains

A `PageChain env tok url bs` witnesses that following the `next` links from
`url` (with the standard headers, as `get_request` sends them) visits a
finite sequence of pages whose bodies are `bs`. -/

inductive PageChain (env : NetEnv) (tok : String) : String → List Json → Prop where
  | last (url : String) :
      (env.net url (stdHeaders tok)).next = none →
      PageChain env tok url [(env.net url (stdHeaders tok)).body]
  | cons (url nurl : String) (bs : List Json) :
      (env.net url (stdHeaders tok)).next = some nurl →
      PageChain env tok nurl bs →
      PageChain env tok url ((env.net url (stdHeaders tok)).body :: bs)

/-- The nested right-to-left dict merge `get_request`'s recursion performs on
a chain of mapping-shaped pages: each level updates its own page with the
merge of all later pages. -/
def chainMerge : List (List (String × Json)) → List (String × Json)
  | [] => []
  | [kvs] => kvs
  | kvs :: rest => dictUpdate kvs (chainMerge rest)

/-- A network in which every page points at another page forever (a circular
`next` chain between urls `A` and `B`). -/
def cycEnv : NetEnv :=
  { net := fun url _ =>
      { status := 200, body := .arr [], etag := none,
        next := some (if url == "A" then "B" else "A") } }

/-! ## `RepoWrapper.load_update_fetch` (ObjectPropertyCache)

The pickle file, the repository timestamp and the remote collection are
modelled as an environment; items are abstracted as naturals; datetimes as
integers. -/

/-- Result of unpickling the property-cache file (`pickle.load`): either an
exception, or a well-formed `[updated, events]` pair as this code writes
them. -/
inductive PickleLoad where
  | corrupt
  | ok (updated : Int) (events : List Nat)
deriving Repr, DecidableEq

structure LufEnv where
  pfileExists : Bool
  pickle : PickleLoad     -- consulted only when pfileExists
  repoUpdatedAt : Int     -- self.repo.updated_at (after self.repo.update())
  nowTime : Int           -- datetime.utcnow() at fetch time
  fetched : List Nat      -- [x for x in methodToCall()]

structure LufResult where
  events : List Nat                            -- return value
  fetchInvoked : Bool                          -- whether methodToCall ran
  cacheWritten : Option (Option Int × List Nat)  -- pickle.dump payload, if any
deriving Repr, DecidableEq

/-- `RepoWrapper.load_update_fetch`, statement by statement.  `pickleFlag`
is `C.DEFAULT_PICKLE_ISSUES` (the dump, not the load, is guarded by it). -/
def load_update_fetch (pickleFlag : Bool) (env : LufEnv) : LufResult :=
  -- edata = pickle.load(f) if the file exists; exceptions set update/write_cache
  let loaded : Option (Int × List Nat) × Bool :=
    if env.pfileExists then
      match env.pickle with
      | .corrupt => (none, true)
      | .ok u ev => (some (u, ev), false)
    else (none, false)
  match loaded with
  | (edata, loadFailed) =>
    let res :=
      -- `if edata:` — check the timestamp on the cache
      match edata with
      | some (u, ev) =>
        if u < env.repoUpdatedAt then (some u, ev, true, true)
        else ((some u : Option Int), ev, loadFailed, loadFailed)
      | none => (none, [], loadFailed, loadFailed)
    match res with
    | (updated, events, update, writeCache) =>
      -- pull all events if timestamp is behind or no events cached
      let doFetch := update || events.isEmpty
      let events2 := if doFetch then env.fetched else events
      let updated2 : Option Int := if doFetch then some env.nowTime else updated
      let writeCache2 := writeCache || doFetch
      let written : Option (Option Int × List Nat) :=
        if pickleFlag && (writeCache2 || !env.pfileExists) then
          some (updated2, events2)
        else none
      ⟨events2, doFetch, written⟩

/-! ## `GitRepoWrapper` (RepositoryMirror / HistoricalFileResolver)

Subprocess results are an oracle indexed by the checkout *generation*: every
`create_checkout` destroys the directory and rebuilds it, bumping the
generation, so commands observe the results for the current incarnation. -/

structure GitEnv where
  logRc : Nat → Int          -- rc of `git log -1 | head -n1 | awk ...`
  headOut : Nat → String     -- its stripped stdout (the HEAD hash)
  checkoutRc : Nat → Int     -- rc of `git checkout <commit>`
  pullRc : Nat → Int         -- rc of `git pull --rebase`
  pullOut : Nat → String     -- its stdout
  cloneRc : Nat → Int        -- rc of `git clone`
  lsOut : Nat → String       -- stdout of `git ls-files`
  lsOutNoDir : String        -- ditto when checkoutdir is None (`cd None; ...`)
  findOut : Nat → String     -- stdout of `find .` (tarball checkouts)
  findOutNoDir : String

/-- The mutable fields of a `GitRepoWrapper` instance, plus `diskExists` and
`gen` modelling the on-disk checkout directory (its existence and its
incarnation). -/
structure GitRepo where
  needsRebase : Bool
  repo : Option String
  commit : Option String
  context : Option String
  lrevMap : List (String × String)   -- self._lrev_map
  isGitFlag : Bool                   -- self._is_git
  checkoutdir : Option String
  filesCache : List String           -- self._files
  commitsByEmail : Option Unit       -- None vs a populated map
  diskExists : Bool                  -- os.path.isdir(self.checkoutdir)
  gen : Nat

/-- Python truthiness of `self.repo` (None and '' are falsy). -/
def strTruthy : Option String → Bool
  | none => false
  | some s => s != ""

/-- `'http' not in x` as substring containment. -/
def containsHttp (x : String) : Bool := strIn "http" x

/-- The checkout path derived in `__init__`:
`urlparts = [x for x in repo.split('/') if x and 'http' not in x]`,
joined under the cache dir. -/
def mkCheckoutPath (cachedir repo : String) : String :=
  let urlparts := (pySplit repo '/').filter (fun x => x != "" && !containsHttp x)
  String.intercalate "/" (cachedir :: urlparts)

/-- `GitRepoWrapper.isgit`: `not self.repo.endswith('.tar.gz')` — raises
AttributeError when `self.repo` is None. -/
def GitRepo.isgit (st : GitRepo) : Except PyErr Bool :=
  match st.repo with
  | none => .error .attributeError
  | some r => .ok (!pyEnds r ".tar.gz")

/-- `git ls-files` stdout parsing: split lines, strip, drop empties. -/
def parseLsFiles (s : String) : List String :=
  ((pySplit s '\n').map pyStrip).filter (fun x => x != "")

/-- `find .` stdout parsing: keep lines starting `./`, strip that prefix. -/
def parseFind (s : String) : List String :=
  (pySplit s '\n').filterMap
    (fun fp => if pyStarts fp "./" then some (fp.drop 2) else none)

/-- `GitRepoWrapper.create_checkout`: rmtree the directory if present, then
clone (or download-and-extract a tarball); a failed clone leaves a freshly
created empty directory (`os.makedirs`).  Either way the old incarnation is
gone: `diskExists` becomes true and `gen` is bumped. -/
def create_checkout (st : GitRepo) : Except PyErr GitRepo :=
  match st.repo with
  | none => .error .attributeError  -- self.repo.endswith on None
  | some r =>
    if pyEnds r ".tar.gz" then
      .ok { st with isGitFlag := false, diskExists := true, gen := st.gen + 1 }
    else
      .ok { st with diskExists := true, gen := st.gen + 1 }

/-- `GitRepoWrapper.update_checkout`: pinned-revision switch or
pull-with-rebase; non-zero exit falls back to `create_checkout`.  Returns
the `changed` flag together with the new state. -/
def update_checkout (env : GitEnv) (st : GitRepo) : Except PyErr (Bool × GitRepo) :=
  match st.commit with
  | some c =>
    -- git log -1 | head -n1 | awk '{print $2}'
    let rcLog := env.logRc st.gen
    let so := pyStrip (env.headOut st.gen)
    let rc := if so != c then env.checkoutRc st.gen else rcLog
    let changed := so != c
    if rc != 0 then
      match create_checkout st with
      | .error e => .error e
      | .ok st2 => .ok (true, { st2 with commitsByEmail := none })
    else
      .ok (changed, { st with commitsByEmail := none })
  | none =>
    let rc := env.pullRc st.gen
    let so := env.pullOut st.gen
    if rc != 0 then
      -- If rebase failed, recreate the checkout (early `return True`,
      -- skipping the commits_by_email reset below)
      match create_checkout st with
      | .error e => .error e
      | .ok st2 => .ok (true, st2)
    else
      let changed := !(strIn "current branch devel is up to date." (pyLower so))
      .ok (changed, { st with commitsByEmail := none })

/-- `GitRepoWrapper.manage_checkout`. -/
def manage_checkout (env : GitEnv) (st : GitRepo) : Except PyErr (Bool × GitRepo) :=
  if !st.isGitFlag then .ok (false, st)
  else
    match st.checkoutdir with
    | none => .error .typeError  -- os.path.isdir(None)
    | some _ =>
      if !st.diskExists then
        match create_checkout st with
        | .error e => .error e
        | .ok st1 => .ok (true, st1)
      else if st.needsRebase then update_checkout env st
      else .ok (false, st)

/-- `GitRepoWrapper.get_files`: enumerate tracked files (git) or walk the
tree (tarball) and cache the listing.  The source's
`if self.context: self._files = [x for x in files if self.context in files]`
line is dead — it is unconditionally overwritten by `self._files = files`
on the next line — so only the final assignment is modelled. -/
def get_files (env : GitEnv) (force : Bool) (st : GitRepo) : Except PyErr GitRepo :=
  match st.isgit with
  | .error e => .error e
  | .ok true =>
    if st.filesCache.isEmpty || force then
      let out := match st.checkoutdir with
                 | some _ => env.lsOut st.gen
                 | none => env.lsOutNoDir
      .ok { st with filesCache := parseLsFiles out }
    else .ok st
  | .ok false =>
    let out := match st.checkoutdir with
               | some _ => env.findOut st.gen
               | none => env.findOutNoDir
    .ok { st with filesCache := parseFind out }

/-- `GitRepoWrapper.update`: sync the checkout, re-enumerate the files when
anything changed (or when forced, or for tarball mirrors), and drop the
per-generation memos. -/
def GitRepo.update (env : GitEnv) (force : Bool) (st : GitRepo) : Except PyErr GitRepo :=
  match manage_checkout env st with
  | .error e => .error e
  | .ok (changed, st1) =>
    match (if changed || force || !st1.isGitFlag then get_files env true st1 else .ok st1) with
    | .error e => .error e
    | .ok st2 => .ok { st2 with commitsByEmail := none, lrevMap := [] }

/-- The `files` property: run `get_files`, then apply the context filter
(`startswith` filter plus prefix stripping via Python's replace-all). -/
def GitRepo.files (env : GitEnv) (st : GitRepo) : Except PyErr (GitRepo × List String) :=
  match get_files env false st with
  | .error e => .error e
  | .ok st1 =>
    match st1.context with
    | some ctx =>
      if ctx != "" then
        let fs := (st1.filesCache.filter (fun x => pyStarts x ctx)).map
                    (fun x => pyReplace x (pyRstripSlash ctx ++ "/") "")
        .ok (st1, fs)
      else .ok (st1, st1.filesCache)
    | none => .ok (st1, st1.filesCache)

/-- `GitRepoWrapper.exists`: `filename in self.files`. -/
def GitRepo.existsFile (env : GitEnv) (st : GitRepo) (filename : String) :
    Except PyErr (GitRepo × Bool) :=
  match st.files env with
  | .error e => .error e
  | .ok (st1, fs) => .ok (st1, fs.contains filename)

/-- `GitRepoWrapper.__init__`: derive the checkout dir only for truthy
repos, then `update(force=True)` — also only for truthy repos.
`diskHasCheckout` says whether the checkout directory already exists on
disk when the object is constructed. -/
def initGitRepo (env : GitEnv) (cachedir : String) (repo : Option String)
    (commit : Option String) (rebase : Bool) (context : Option String)
    (diskHasCheckout : Bool) : Except PyErr GitRepo :=
  let checkoutdir : Option String :=
    if strTruthy repo then some (mkCheckoutPath cachedir (repo.getD "")) else none
  let st0 : GitRepo :=
    { needsRebase := rebase, repo := repo, commit := commit, context := context,
      lrevMap := [], isGitFlag := true, checkoutdir := checkoutdir,
      filesCache := [], commitsByEmail := none,
      diskExists := diskHasCheckout, gen := 0 }
  if strTruthy repo then st0.update env true else .ok st0

/-! ## `get_file_content` / `get_last_rev_for_file` (HistoricalFileResolver)

The working tree and git's answers are an oracle: `tree` is a read of
`checkoutdir/<path>` from disk, `revList` the stripped stdout of
`git rev-list --max-count=1 --all -- <path>`, and `showParent rev path` the
stdout of `git show <rev>^:<path>` (empty on failure — the source ignores
the exit code). -/

structure FsGitEnv where
  tree : String → Option String
  revList : String → String
  showParent : String → String → String

def lookupStr (l : List (String × String)) (k : String) : Option String :=
  (l.find? (fun kv => kv.1 == k)).map (·.2)

/-- `GitRepoWrapper.get_last_rev_for_file` with its `_lrev_map` memo. -/
def get_last_rev_for_file (env : FsGitEnv) (st : GitRepo) (filepath : String) :
    String × GitRepo :=
  match lookupStr st.lrevMap filepath with
  | some l => (l, st)
  | none =>
    let l := env.revList filepath
    (l, { st with lrevMap := st.lrevMap ++ [(filepath, l)] })

/-- `os.path.dirname` for relative slash-paths. -/
def pyDirname (s : String) : String :=
  String.intercalate "/" (pySplit s '/').dropLast

/-- `os.path.join` for the shapes used here. -/
def pyPathJoin (a b : String) : String :=
  if pyStarts b "/" then b
  else if a == "" then b
  else if pyEnds a "/" then a ++ b
  else a ++ "/" ++ b

/-- `GitRepoWrapper.get_file_content`: read from the working tree if
present; otherwise, with `follow`, show the file at the parent of its last
revision; if that (stripped) content ends in `.py` treat it as a relocation
pointer and show the pointed-to path — at the parent of the *original*
path's last revision (the source re-resolves `self.get_last_rev_for_file(filepath)`
for the original `filepath`, not for `newpath`). -/
def get_file_content (env : FsGitEnv) (st : GitRepo) (filepath : String)
    (follow : Bool) : Option String × GitRepo :=
  match env.tree filepath with
  | some data => (some data, st)
  | none =>
    if !follow then (none, st)
    else
      match get_last_rev_for_file env st filepath with
      | (lrev, st1) =>
        let so := pyStrip (env.showParent lrev filepath)
        if pyEnds so ".py" then
          let newpath := pyPathJoin (pyDirname filepath) so
          match get_last_rev_for_file env st1 filepath with
          | (lrev2, st2) => (some (pyStrip (env.showParent lrev2 newpath)), st2)
        else (some so, st1)

/-- Modelled from the spec (§4.4): the redirect target "is resolved the same
way" — its content is read at the parent of the last revision that touched
the *target* path.  Used only to exhibit the divergence from the source. -/
def get_file_content_specFollow (env : FsGitEnv) (st : GitRepo)
    (filepath : String) : Option String × GitRepo :=
  match env.tree filepath with
  | some data => (some data, st)
  | none =>
    match get_last_rev_for_file env st filepath with
    | (lrev, st1) =>
      let so := pyStrip (env.showParent lrev filepath)
      if pyEnds so ".py" then
        let newpath := pyPathJoin (pyDirname filepath) so
        match get_last_rev_for_file env st1 newpath with
        | (lrev2, st2) => (some (pyStrip (env.showParent lrev2 newpath)), st2)
      else (some so, st1)

/-! ## Concrete instances used by witnesses and counterexamples -/

/-- A url whose second-to-last segment is not `commits`. -/
def url0 : String := "https://api.example.org/repos/o/r/issues/1"

def body0 : Json := .obj [("id", .num 1), ("state", .str "open")]

/-- A network that always answers 200 with `body0`, etag `"abc"`, no next. -/
def env200 : NetEnv :=
  { net := fun _ _ => { status := 200, body := body0, etag := some "abc", next := none } }

/-- A network that always answers 304. -/
def env304 : NetEnv :=
  { net := fun _ _ => { status := 304, body := .null, etag := some "abc", next := none } }

/-- A network answering a rate-limit-exceeded sentinel body. -/
def envRL : NetEnv :=
  { net := fun _ _ =>
      { status := 403,
        body := .obj [("message", .str "API rate limit exceeded for 1.2.3.4.")],
        etag := none, next := none } }

def emptyCache : CacheSt := { files := [], meta := [] }

/-- The cache state after one non-304 fetch of `url0` through `env200`. -/
def stAfterFirst : CacheSt := (get_cached_request env200 "t" "c" 1 emptyCache url0).1

/-- A two-page network: `url0` links to `u2`, whose page is final. -/
def envPag : NetEnv :=
  { net := fun url _ =>
      if url == url0 then
        { status := 200, body := .arr [.num 1], etag := none, next := some "u2" }
      else
        { status := 200, body := .arr [.num 2], etag := none, next := none } }

/-- A generic wrapper state for the file-content theorems. -/
def gitRepo0 : GitRepo :=
  { needsRebase := true, repo := some "https://github.com/o/r", commit := none,
    context := none, lrevMap := [], isGitFlag := true,
    checkoutdir := some "cache/github.com/o/r", filesCache := [],
    commitsByEmail := none, diskExists := true, gen := 0 }

/-- Working tree containing `f.py`. -/
def envTree : FsGitEnv :=
  { tree := fun p => if p == "f.py" then some "DATA" else none,
    revList := fun _ => "", showParent := fun _ _ => "" }

/-- History for the redirect scenario: `a/old.py` was deleted in `c3`, its
last live content is the relocation pointer `new.py`; the target
`a/new.py` was last touched in `c9` (content `NEW-CONTENT` just before
that), while at `c3^` it still read `OLD-CONTENT`. -/
def envC7 : FsGitEnv :=
  { tree := fun _ => none,
    revList := fun p =>
      if p == "a/old.py" then "c3" else if p == "a/new.py" then "c9" else "",
    showParent := fun rev p =>
      if rev == "c3" && p == "a/old.py" then "new.py"
      else if rev == "c3" && p == "a/new.py" then "OLD-CONTENT"
      else if rev == "c9" && p == "a/new.py" then "NEW-CONTENT"
      else "" }

/-- A git oracle with empty outputs and zero exit codes. -/
def envC10 : GitEnv :=
  { logRc := fun _ => 0, headOut := fun _ => "", checkoutRc := fun _ => 0,
    pullRc := fun _ => 0, pullOut := fun _ => "", cloneRc := fun _ => 0,
    lsOut := fun _ => "", lsOutNoDir := "", findOut := fun _ => "",
    findOutNoDir := "" }

/-- The state `__init__` builds for a falsy repo (`None` or `''`):
no checkout dir, no update run. -/
def nullGitRepo (repo commit context : Option String) (rebase dhc : Bool) :
    GitRepo :=
  { needsRebase := rebase, repo := repo, commit := commit, context := context,
    lrevMap := [], isGitFlag := true, checkoutdir := none, filesCache := [],
    commitsByEmail := none, diskExists := dhc, gen := 0 }

/-- A property cache whose entry is fresh but holds an empty item list. -/
def lufEnvEmptyItems : LufEnv :=
  { pfileExists := true, pickle := .ok 5 [], repoUpdatedAt := 5, nowTime := 9,
    fetched := [7] }

/-- A fresh non-empty property-cache environment. -/
def lufEnv1 : LufEnv :=
  { pfileExists := true, pickle := .ok 10 [1, 2], repoUpdatedAt := 8,
    nowTime := 11, fetched := [3] }

/-- First call of the two-call scenario: no cache file yet. -/
def lufEnvA : LufEnv :=
  { pfileExists := false, pickle := .corrupt, repoUpdatedAt := 8,
    nowTime := 12, fetched := [4, 5] }

/-- Second call: cache file as written by the first call, parent timestamp
unchanged. -/
def lufEnvB : LufEnv :=
  { pfileExists := true, pickle := .ok 12 [4, 5], repoUpdatedAt := 8,
    nowTime := 13, fetched := [9] }

/-- The sync subprocess fails: non-zero exit from `git pull --rebase`
(no pin) or, under a pin mismatch, from `git checkout <commit>`. -/
def syncFails (env : GitEnv) (st : GitRepo) : Prop :=
  match st.commit with
  | none => env.pullRc st.gen ≠ 0
  | some c => pyStrip (env.headOut st.gen) ≠ c ∧ env.checkoutRc st.gen ≠ 0

/-- A git oracle whose `git pull --rebase` fails. -/
def envC4 : GitEnv :=
  { logRc := fun _ => 0, headOut := fun _ => "", checkoutRc := fun _ => 1,
    pullRc := fun _ => 1, pullOut := fun _ => "error: could not apply",
    cloneRc := fun _ => 0, lsOut := fun g => if g == 1 then "a.py\nb.py" else "",
    lsOutNoDir := "", findOut := fun _ => "", findOutNoDir := "" }

/-- A git-mirror state with the shape `update` expects: truthy repo, git
kind, existing checkout directory, rebase enabled. -/
def mkGitSt (r d : String) (cmt ctx : Option String)
    (lm : List (String × String)) (fc : List String) (ce : Option Unit)
    (g : Nat) : GitRepo :=
  { needsRebase := true, repo := some r, commit := cmt, context := ctx,
    lrevMap := lm, isGitFlag := true, checkoutdir := some d,
    filesCache := fc, commitsByEmail := ce, diskExists := true, gen := g }

/-- Two list-shaped pages: `u1` (elements 1,2) links to `u2` (element 3). -/
def env6 : NetEnv :=
  { net := fun url _ =>
      if url == "u1" then
        { status := 200, body := .arr [.num 1, .num 2], etag := none,
          next := some "u2" }
      else
        { status := 200, body := .arr [.num 3], etag := none, next := none } }

/-- Two mapping-shaped pages with a conflicting key `b`. -/
def env6d : NetEnv :=
  { net := fun url _ =>
      if url == "u1" then
        { status := 200, body := .obj [("a", .num 1), ("b", .num 2)],
          etag := none, next := some "u2" }
      else
        { status := 200, body := .obj [("b", .num 9), ("c", .num 3)],
          etag := none, next := none } }

/-! ## Shared lemmas about the association-list stores -/

theorem find?_filter_ne {α : Type} (l : List (String × α)) (k k' : String)
    (h : k' ≠ k) :
    (l.filter (fun kv => kv.1 != k)).find? (fun kv => kv.1 == k') =
      l.find? (fun kv => kv.1 == k') := by
  induction l with
  | nil => rfl
  | cons a l ih =>
    rw [List.filter_cons]
    by_cases hak : a.1 = k
    · have h1 : (a.1 != k) = false := by simp [hak]
      rw [h1]
      simp only [Bool.false_eq_true, if_false]
      rw [ih, List.find?_cons_of_neg _ (by simp [hak, Ne.symm h])]
    · have h1 : (a.1 != k) = true := by simp [hak]
      rw [h1]
      simp only [if_true]
      by_cases hak' : a.1 = k'
      · rw [List.find?_cons_of_pos _ (by simp [hak']),
          List.find?_cons_of_pos _ (by simp [hak'])]
      · rw [List.find?_cons_of_neg _ (by simp [hak']),
          List.find?_cons_of_neg _ (by simp [hak']), ih]

theorem metaGet_metaSet_ne (st : CacheSt) (url url' : String) (m : MetaRec)
    (h : url' ≠ url) :
    metaGet (metaSet st url m) url' = metaGet st url' := by
  unfold metaGet metaSet
  simp only
  rw [List.find?_cons_of_neg _ (by simp [Ne.symm h]), find?_filter_ne _ _ _ h]

theorem metaGet_metaSet_self (st : CacheSt) (url : String) (m : MetaRec) :
    metaGet (metaSet st url m) url = some m := by
  unfold metaGet metaSet
  simp only
  rw [List.find?_cons_of_pos _ (by simp)]
  rfl

theorem fileRead_fileWrite_ne (st : CacheSt) (p p' : String) (b : Blob)
    (h : p' ≠ p) :
    fileRead (fileWrite st p b) p' = fileRead st p' := by
  unfold fileRead fileWrite
  simp only
  rw [List.find?_cons_of_neg _ (by simp [Ne.symm h]), find?_filter_ne _ _ _ h]

theorem fileRead_fileWrite_self (st : CacheSt) (p : String) (b : Blob) :
    fileRead (fileWrite st p b) p = some b := by
  unfold fileRead fileWrite
  simp only
  rw [List.find?_cons_of_pos _ (by simp)]
  rfl

theorem fileRead_metaSet (st : CacheSt) (url p : String) (m : MetaRec) :
    fileRead (metaSet st url m) p = fileRead st p := rfl

theorem metaGet_fileWrite (st : CacheSt) (p url : String) (b : Blob) :
    metaGet (fileWrite st p b) url = metaGet st url := rfl

/-! ## Frame and trace lemmas for `get_request` -/

/-- `get_request` never writes to the cache or the metadata store. -/
theorem get_request_state (env : NetEnv) (tok : String) (fuel : Nat) :
    ∀ st url, (get_request env tok fuel st url).1 = st := by
  induction fuel with
  | zero => intro st url; rfl
  | succ fuel ih =>
    intro st url
    rw [get_request]
    rcases hrl : rateLimitCheck (env.net url (stdHeaders tok)).body with e | u
    · simp [hrl]
    · rcases hnx : (env.net url (stdHeaders tok)).next with _ | nurl
      · simp [hrl, hnx]
      · rcases hrec : get_request env tok fuel st nurl with ⟨st2, tr, res⟩
        have hst : st2 = st := by
          have := ih st nurl; rw [hrec] at this; exact this
        cases res with
        | error e => simp [hrl, hnx, hrec, hst]
        | ok d2 =>
          rcases hm : mergePages true (env.net url (stdHeaders tok)).body d2
            with m | e <;> simp [hrl, hnx, hrec, hst, hm]

/-- Every request `get_request` issues carries the standard headers only:
no `If-None-Match` is ever attached. -/
theorem get_request_trace (env : NetEnv) (tok : String) (fuel : Nat) :
    ∀ st url r, r ∈ (get_request env tok fuel st url).2.1 → r.hdrs = stdHeaders tok := by
  induction fuel with
  | zero => intro st url r h; simp [get_request] at h
  | succ fuel ih =>
    intro st url r h
    rw [get_request] at h
    rcases hrl : rateLimitCheck (env.net url (stdHeaders tok)).body with e | u
    · simp only [hrl] at h; simp at h; rw [h]
    · simp only [hrl] at h
      rcases hnx : (env.net url (stdHeaders tok)).next with _ | nurl
      · simp only [hnx] at h; simp at h; rw [h]
      · simp only [hnx] at h
        rcases hrec : get_request env tok fuel st nurl with ⟨st2, tr, res⟩
        simp only [hrec] at h
        have htr : ∀ r ∈ tr, r.hdrs = stdHeaders tok := by
          intro r hr
          exact ih st nurl r (by rw [hrec]; exact hr)
        cases res with
        | error e =>
          simp at h
          rcases h with h | h
          · rw [h]
          · exact htr r h
        | ok d2 =>
          dsimp only at h
          rcases hm : mergePages true (env.net url (stdHeaders tok)).body d2 with m | e <;>
          · rw [hm] at h
            simp at h
            rcases h with h | h
            · rw [h]
            · exact htr r h

/-- `get_cached_request` touches the metadata store at most at its own url. -/
theorem get_cached_request_meta_frame (env : NetEnv) (tok cacheDir : String)
    (fuel : Nat) (st : CacheSt) (url k : String) (h : k ≠ url) :
    metaGet (get_cached_request env tok cacheDir fuel st url).1 k = metaGet st k := by
  rw [get_cached_request]
  dsimp only
  split
  · rfl
  · split
    · split
      · split <;> rfl
      · rfl
    · cases hb : (firstResp env tok cacheDir st url).status == 304 with
      | false =>
        simp only [hb, Bool.false_eq_true, if_false]
        rcases hrl : rateLimitCheck (firstResp env tok cacheDir st url).body with e | u
        · simp only [hrl]
        · simp only [hrl]
          rcases hnx : (firstResp env tok cacheDir st url).next with _ | nurl
          · simp only [hnx]
            rw [metaGet_metaSet_ne _ _ _ _ h, metaGet_fileWrite]
          · simp only [hnx]
            rcases hrec : get_request env tok fuel
                (metaSet (fileWrite st (cdfPath cacheDir url)
                  (Blob.gz (firstResp env tok cacheDir st url).body)) url
                  ⟨(firstResp env tok cacheDir st url).etag, cdfPath cacheDir url⟩) nurl
              with ⟨st3, tr, res⟩
            have hst3 : st3 = metaSet (fileWrite st (cdfPath cacheDir url)
                (Blob.gz (firstResp env tok cacheDir st url).body)) url
                ⟨(firstResp env tok cacheDir st url).etag, cdfPath cacheDir url⟩ := by
              have := get_request_state env tok fuel
                (metaSet (fileWrite st (cdfPath cacheDir url)
                  (Blob.gz (firstResp env tok cacheDir st url).body)) url
                  ⟨(firstResp env tok cacheDir st url).etag, cdfPath cacheDir url⟩) nurl
              rw [hrec] at this; exact this
            cases res with
            | error e =>
              simp only [hrec]
              rw [hst3, metaGet_metaSet_ne _ _ _ _ h, metaGet_fileWrite]
            | ok d2 =>
              rcases hm : mergePages false (firstResp env tok cacheDir st url).body d2
                with m | e <;>
              · simp only [hrec, hm]
                rw [hst3, metaGet_metaSet_ne _ _ _ _ h, metaGet_fileWrite]
      | true =>
        simp only [hb, if_true]
        rcases hfr : fileRead st (cdfPath cacheDir url) with _ | b
        · simp only [hfr]
        · simp only [hfr]
          rcases hpl : plainJsonLoads b with _ | j
          · simp only [hpl]
          · simp only [hpl]
            rcases hnx : (firstResp env tok cacheDir st url).next with _ | nurl
            · simp only [hnx]
              rw [metaGet_metaSet_ne _ _ _ _ h]
            · simp only [hnx]
              rcases hrec : get_request env tok fuel
                  (metaSet st url
                    ⟨(firstResp env tok cacheDir st url).etag, cdfPath cacheDir url⟩) nurl
                with ⟨st3, tr, res⟩
              have hst3 : st3 = metaSet st url
                  ⟨(firstResp env tok cacheDir st url).etag, cdfPath cacheDir url⟩ := by
                have := get_request_state env tok fuel
                  (metaSet st url
                    ⟨(firstResp env tok cacheDir st url).etag, cdfPath cacheDir url⟩) nurl
                rw [hrec] at this; exact this
              cases res with
              | error e =>
                simp only [hrec]
                rw [hst3, metaGet_metaSet_ne _ _ _ _ h]
              | ok d2 =>
                rcases hm : mergePages false j d2 with m | e <;>
                · simp only [hrec, hm]
                  rw [hst3, metaGet_metaSet_ne _ _ _ _ h]

/-- `get_cached_request` touches the on-disk cache at most at its own
derived cache-file path. -/
theorem get_cached_request_files_frame (env : NetEnv) (tok cacheDir : String)
    (fuel : Nat) (st : CacheSt) (url p : String) (h : p ≠ cdfPath cacheDir url) :
    fileRead (get_cached_request env tok cacheDir fuel st url).1 p = fileRead st p := by
  rw [get_cached_request]
  dsimp only
  split
  · rfl
  · split
    · split
      · split <;> rfl
      · rfl
    · cases hb : (firstResp env tok cacheDir st url).status == 304 with
      | false =>
        simp only [hb, Bool.false_eq_true, if_false]
        rcases hrl : rateLimitCheck (firstResp env tok cacheDir st url).body with e | u
        · simp only [hrl]
        · simp only [hrl]
          rcases hnx : (firstResp env tok cacheDir st url).next with _ | nurl
          · simp only [hnx]
            rw [fileRead_metaSet, fileRead_fileWrite_ne _ _ _ _ h]
          · simp only [hnx]
            rcases hrec : get_request env tok fuel
                (metaSet (fileWrite st (cdfPath cacheDir url)
                  (Blob.gz (firstResp env tok cacheDir st url).body)) url
                  ⟨(firstResp env tok cacheDir st url).etag, cdfPath cacheDir url⟩) nurl
              with ⟨st3, tr, res⟩
            have hst3 : st3 = metaSet (fileWrite st (cdfPath cacheDir url)
                (Blob.gz (firstResp env tok cacheDir st url).body)) url
                ⟨(firstResp env tok cacheDir st url).etag, cdfPath cacheDir url⟩ := by
              have := get_request_state env tok fuel
                (metaSet (fileWrite st (cdfPath cacheDir url)
                  (Blob.gz (firstResp env tok cacheDir st url).body)) url
                  ⟨(firstResp env tok cacheDir st url).etag, cdfPath cacheDir url⟩) nurl
              rw [hrec] at this; exact this
            cases res with
            | error e =>
              simp only [hrec]
              rw [hst3, fileRead_metaSet, fileRead_fileWrite_ne _ _ _ _ h]
            | ok d2 =>
              rcases hm : mergePages false (firstResp env tok cacheDir st url).body d2
                with m | e <;>
              · simp only [hrec, hm]
                rw [hst3, fileRead_metaSet, fileRead_fileWrite_ne _ _ _ _ h]
      | true =>
        simp only [hb, if_true]
        rcases hfr : fileRead st (cdfPath cacheDir url) with _ | b
        · simp only [hfr]
        · simp only [hfr]
          rcases hpl : plainJsonLoads b with _ | j
          · simp only [hpl]
          · simp only [hpl]
            rcases hnx : (firstResp env tok cacheDir st url).next with _ | nurl
            · simp only [hnx]
              rw [fileRead_metaSet]
            · simp only [hnx]
              rcases hrec : get_request env tok fuel
                  (metaSet st url
                    ⟨(firstResp env tok cacheDir st url).etag, cdfPath cacheDir url⟩) nurl
                with ⟨st3, tr, res⟩
              have hst3 : st3 = metaSet st url
                  ⟨(firstResp env tok cacheDir st url).etag, cdfPath cacheDir url⟩ := by
                have := get_request_state env tok fuel
                  (metaSet st url
                    ⟨(firstResp env tok cacheDir st url).etag, cdfPath cacheDir url⟩) nurl
                rw [hrec] at this; exact this
              cases res with
              | error e =>
                simp only [hrec]
                rw [hst3, fileRead_metaSet]
              | ok d2 =>
                rcases hm : mergePages false j d2 with m | e <;>
                · simp only [hrec, hm]
                  rw [hst3, fileRead_metaSet]

/-- Requests issued by `get_cached_request` beyond its own (the follow-up
pagination pages, delegated to `get_request`) all go out with the standard
headers: no `If-None-Match`. -/
theorem get_cached_request_tail_trace (env : NetEnv) (tok cacheDir : String)
    (fuel : Nat) (st : CacheSt) (url : String) (r : ReqLog)
    (hr : r ∈ (get_cached_request env tok cacheDir fuel st url).2.1.tail) :
    r.hdrs = stdHeaders tok := by
  rw [get_cached_request] at hr
  dsimp only at hr
  split at hr
  · simp at hr
  · split at hr
    · split at hr
      · split at hr <;> simp at hr
      · simp at hr
    · cases hb : (firstResp env tok cacheDir st url).status == 304 with
      | false =>
        simp only [hb, Bool.false_eq_true, if_false] at hr
        rcases hrl : rateLimitCheck (firstResp env tok cacheDir st url).body with e | u
        · simp only [hrl] at hr; simp at hr
        · simp only [hrl] at hr
          rcases hnx : (firstResp env tok cacheDir st url).next with _ | nurl
          · simp only [hnx] at hr; simp at hr
          · simp only [hnx] at hr
            rcases hrec : get_request env tok fuel
                (metaSet (fileWrite st (cdfPath cacheDir url)
                  (Blob.gz (firstResp env tok cacheDir st url).body)) url
                  ⟨(firstResp env tok cacheDir st url).etag, cdfPath cacheDir url⟩) nurl
              with ⟨st3, tr, res⟩
            have htr : ∀ x ∈ tr, ReqLog.hdrs x = stdHeaders tok := by
              intro x hx
              exact get_request_trace env tok fuel _ nurl x (by rw [hrec]; exact hx)
            cases res with
            | error e =>
              simp only [hrec] at hr
              simp at hr
              exact htr r hr
            | ok d2 =>
              rcases hm : mergePages false (firstResp env tok cacheDir st url).body d2
                with m | e <;>
              · simp only [hrec, hm] at hr
                simp at hr
                exact htr r hr
      | true =>
        simp only [hb, if_true] at hr
        rcases hfr : fileRead st (cdfPath cacheDir url) with _ | b
        · simp only [hfr] at hr; simp at hr
        · simp only [hfr] at hr
          rcases hpl : plainJsonLoads b with _ | j
          · simp only [hpl] at hr; simp at hr
          · simp only [hpl] at hr
            rcases hnx : (firstResp env tok cacheDir st url).next with _ | nurl
            · simp only [hnx] at hr; simp at hr
            · simp only [hnx] at hr
              rcases hrec : get_request env tok fuel
                  (metaSet st url
                    ⟨(firstResp env tok cacheDir st url).etag, cdfPath cacheDir url⟩) nurl
                with ⟨st3, tr, res⟩
              have htr : ∀ x ∈ tr, ReqLog.hdrs x = stdHeaders tok := by
                intro x hx
                exact get_request_trace env tok fuel _ nurl x (by rw [hrec]; exact hx)
              cases res with
              | error e =>
                simp only [hrec] at hr
                simp at hr
                exact htr r hr
              | ok d2 =>
                rcases hm : mergePages false j d2 with m | e <;>
                · simp only [hrec, hm] at hr
                  simp at hr
                  exact htr r hr

/-! ## C9 — follow-up pages are unconditional and uncached -/

/-- C9: every page after the first is retrieved via `get_request`, which
sends no `If-None-Match` header on any request, writes no cache body and
stores no metadata; `get_cached_request` itself writes only the metadata
entry for its own url and the cache file at its own derived path, so the
cache/metadata state for the follow-up urls is left unchanged. -/
theorem c9_followup_pages_unconditional :
    (∀ env tok fuel st url, (get_request env tok fuel st url).1 = st) ∧
    (∀ env tok fuel st url r, r ∈ (get_request env tok fuel st url).2.1 →
      r.hdrs.ifNoneMatch = none) ∧
    (∀ env tok cacheDir fuel st url k, k ≠ url →
      metaGet (get_cached_request env tok cacheDir fuel st url).1 k = metaGet st k) ∧
    (∀ env tok cacheDir fuel st url p, p ≠ cdfPath cacheDir url →
      fileRead (get_cached_request env tok cacheDir fuel st url).1 p = fileRead st p) ∧
    (∀ env tok cacheDir fuel st url r,
      r ∈ (get_cached_request env tok cacheDir fuel st url).2.1.tail →
      r.hdrs.ifNoneMatch = none) := by
  refine ⟨get_request_state, ?_, get_cached_request_meta_frame,
    get_cached_request_files_frame, ?_⟩
  · intro env tok fuel st url r h
    rw [get_request_trace env tok fuel st url r h]
    rfl
  · intro env tok cacheDir fuel st url r h
    rw [get_cached_request_tail_trace env tok cacheDir fuel st url r h]
    rfl

set_option maxRecDepth 10000 in
/-- Witness for C9 on a concrete two-page fetch. -/
theorem c9_witness :
    (get_request envPag "t" 2 emptyCache "u2").1 = emptyCache ∧
    (⟨"u2", stdHeaders "t"⟩ : ReqLog).hdrs.ifNoneMatch = none ∧
    metaGet (get_cached_request envPag "t" "c" 2 emptyCache url0).1 "u2" =
      metaGet emptyCache "u2" ∧
    fileRead (get_cached_request envPag "t" "c" 2 emptyCache url0).1 "c/u2.json.gz" =
      fileRead emptyCache "c/u2.json.gz" ∧
    (⟨"u2", stdHeaders "t"⟩ : ReqLog) ∈
      (get_cached_request envPag "t" "c" 2 emptyCache url0).2.1.tail := by
  have h := c9_followup_pages_unconditional
  refine ⟨h.1 envPag "t" 2 emptyCache "u2", ?_, ?_, ?_, ?_⟩
  · exact h.2.2.2.2 envPag "t" "c" 2 emptyCache url0 _ (by decide)
  · exact h.2.2.1 envPag "t" "c" 2 emptyCache url0 "u2" (by decide)
  · exact h.2.2.2.1 envPag "t" "c" 2 emptyCache url0 "c/u2.json.gz" (by decide)
  · decide

/-! ## C2 — conditional `If-None-Match` header -/

/-- C2: outside the immutable-commit special case, the single request
`get_cached_request` issues carries `If-None-Match: <stored etag>` if and
only if a metadata entry with a truthy etag exists for the url and the
derived on-disk body file exists; otherwise no conditional header is sent. -/
theorem c2_if_none_match_iff (env : NetEnv) (tok cacheDir : String) (fuel : Nat)
    (st : CacheSt) (url : String)
    (hlen : ¬ (pySplit url '/').length < 2)
    (hnc : ¬ (((pySplit url '/')[(pySplit url '/').length - 2]! == "commits")
              && fileExists st (cdfPath cacheDir url)) = true) :
    (get_cached_request env tok cacheDir fuel st url).2.1.head? =
      some ⟨url, condHeader tok st cacheDir url⟩ ∧
    (condHeader tok st cacheDir url).ifNoneMatch =
      (if etagTruthy ((metaGet st url).bind (·.etag))
          && fileExists st (cdfPath cacheDir url)
       then (metaGet st url).bind (·.etag) else none) := by
  refine ⟨?_, rfl⟩
  rw [get_cached_request, if_neg hlen, if_neg hnc]
  dsimp only
  split
  · rfl
  · split
    · rfl
    · split
      · rfl
      · split <;> rfl

/-- Witness for C2 at a concrete state with a stored etag and cached body:
the request goes out with `If-None-Match: "abc"`. -/
theorem c2_witness :
    (get_cached_request env304 "t" "c" 1 stAfterFirst url0).2.1.head? =
      some ⟨url0, condHeader "t" stAfterFirst "c" url0⟩ ∧
    (condHeader "t" stAfterFirst "c" url0).ifNoneMatch = some "abc" := by
  refine ⟨(c2_if_none_match_iff env304 "t" "c" 1 stAfterFirst url0
    (by decide) (by decide)).1, ?_⟩
  rfl

/-! ## C5 — rate-limit sentinel raises and caches nothing -/

/-- Shared rate-limit computation: a mapping body whose truthy `message`
string starts (case-insensitively) with the sentinel makes the check
raise. -/
theorem rateLimitCheck_fires (kvs : List (String × Json)) (msg : String)
    (hm : lookupKV kvs "message" = some (.str msg)) (hn : msg ≠ "")
    (hs : pyStarts (pyLower msg) "api rate limit exceeded" = true) :
    rateLimitCheck (Json.obj kvs) = .error .rateLimit := by
  unfold rateLimitCheck
  dsimp only
  rw [hm]
  simp only [show (Json.str msg).truthy = true by
    simp [Json.truthy, bne_iff_ne, hn], if_true, hs]

/-- C5: a non-304 response whose mapping body carries a `message` starting
(case-insensitively) with 'api rate limit exceeded' makes both
`get_cached_request` and `get_request` raise `RateLimitError`, and
`get_cached_request` leaves the cache state untouched — no body file and no
metadata are written for the url. -/
theorem c5_rate_limit_error (env : NetEnv) (tok cacheDir : String) (fuel : Nat)
    (st : CacheSt) (url url2 : String) (kvs kvs2 : List (String × Json))
    (msg msg2 : String)
    (hlen : ¬ (pySplit url '/').length < 2)
    (hnc : ¬ (((pySplit url '/')[(pySplit url '/').length - 2]! == "commits")
              && fileExists st (cdfPath cacheDir url)) = true)
    (h304 : ((firstResp env tok cacheDir st url).status == 304) = false)
    (hbody : (firstResp env tok cacheDir st url).body = .obj kvs)
    (hmsg : lookupKV kvs "message" = some (.str msg))
    (hne : msg ≠ "")
    (hstart : pyStarts (pyLower msg) "api rate limit exceeded" = true)
    (hbody2 : (env.net url2 (stdHeaders tok)).body = .obj kvs2)
    (hmsg2 : lookupKV kvs2 "message" = some (.str msg2))
    (hne2 : msg2 ≠ "")
    (hstart2 : pyStarts (pyLower msg2) "api rate limit exceeded" = true) :
    get_cached_request env tok cacheDir fuel st url =
      (st, [⟨url, condHeader tok st cacheDir url⟩], .error .rateLimit) ∧
    get_request env tok (fuel+1) st url2 =
      (st, [⟨url2, stdHeaders tok⟩], .error .rateLimit) := by
  constructor
  · rw [get_cached_request, if_neg hlen, if_neg hnc]
    dsimp only
    simp only [h304, Bool.false_eq_true, if_false, hbody,
      rateLimitCheck_fires kvs msg hmsg hne hstart]
  · rw [get_request]
    simp only [hbody2, rateLimitCheck_fires kvs2 msg2 hmsg2 hne2 hstart2]

set_option maxRecDepth 10000 in
/-- Witness for C5 against a concrete rate-limited network. -/
theorem c5_witness :
    get_cached_request envRL "t" "c" 1 emptyCache url0 =
      (emptyCache, [⟨url0, condHeader "t" emptyCache "c" url0⟩], .error .rateLimit) ∧
    get_request envRL "t" 1 emptyCache "u2" =
      (emptyCache, [⟨"u2", stdHeaders "t"⟩], .error .rateLimit) :=
  c5_rate_limit_error envRL "t" "c" 0 emptyCache url0 "u2"
    [("message", .str "API rate limit exceeded for 1.2.3.4.")]
    [("message", .str "API rate limit exceeded for 1.2.3.4.")]
    "API rate limit exceeded for 1.2.3.4." "API rate limit exceeded for 1.2.3.4."
    (by decide) (by decide) (by decide) rfl rfl (by decide) (by decide)
    rfl rfl (by decide) (by decide)

/-! ## C8 — working-tree round-trip -/

/-- C8: for a path present in the working tree, `get_file_content` returns
exactly the bytes read from disk, for either value of `follow`, and leaves
the wrapper state unchanged. -/
theorem c8_working_tree_roundtrip (env : FsGitEnv) (st : GitRepo)
    (fp c : String) (follow : Bool) (h : env.tree fp = some c) :
    get_file_content env st fp follow = (some c, st) := by
  unfold get_file_content
  rw [h]

/-- Witness for C8: `f.py` is in the tree and is returned verbatim under
both `follow` flags. -/
theorem c8_witness :
    get_file_content envTree gitRepo0 "f.py" false = (some "DATA", gitRepo0) ∧
    get_file_content envTree gitRepo0 "f.py" true = (some "DATA", gitRepo0) :=
  ⟨c8_working_tree_roundtrip envTree gitRepo0 "f.py" "DATA" false rfl,
   c8_working_tree_roundtrip envTree gitRepo0 "f.py" "DATA" true rfl⟩

/-! ## C7 — follow-renames content resolution -/

theorem lookupStr_append_self (l : List (String × String)) (k v : String) :
    lookupStr (l ++ [(k, v)]) k = (lookupStr l k).or (some v) := by
  induction l with
  | nil => simp [lookupStr]
  | cons a l ih =>
    unfold lookupStr at *
    rcases hak : a.1 == k with _ | _
    · rw [List.cons_append, List.find?_cons_of_neg _ (by simp_all),
        List.find?_cons_of_neg _ (by simp_all)] at *
      exact ih
    · rw [List.cons_append, List.find?_cons_of_pos _ (by simp_all),
        List.find?_cons_of_pos _ (by simp_all)]
      rfl

/-- The `_lrev_map` memo is stable: resolving the same path again from the
post-lookup state yields the same revision and the same state. -/
theorem lrev_stable (env : FsGitEnv) (st : GitRepo) (fp : String) :
    get_last_rev_for_file env (get_last_rev_for_file env st fp).2 fp =
      ((get_last_rev_for_file env st fp).1, (get_last_rev_for_file env st fp).2) := by
  unfold get_last_rev_for_file
  rcases hl : lookupStr st.lrevMap fp with _ | l
  · dsimp only
    rw [show lookupStr ({ st with
        lrevMap := st.lrevMap ++ [(fp, env.revList fp)] } : GitRepo).lrevMap fp =
        some (env.revList fp) by
      dsimp only; rw [lookupStr_append_self, hl]; rfl]
  · dsimp only
    rw [hl]

/-- C7 (amended): for an absent path with `follow`, when the stripped
content at the parent of the path's last revision ends in `.py`, the code
returns the stripped content of the pointed-to path — read at the parent of
the *original* path's last revision, not at the parent of the target's own
last revision. -/
theorem c7_follow_redirect (env : FsGitEnv) (st : GitRepo) (fp : String)
    (habs : env.tree fp = none)
    (hptr : pyEnds (pyStrip
      (env.showParent (get_last_rev_for_file env st fp).1 fp)) ".py" = true) :
    (get_file_content env st fp true).1 =
      some (pyStrip (env.showParent (get_last_rev_for_file env st fp).1
        (pyPathJoin (pyDirname fp)
          (pyStrip (env.showParent (get_last_rev_for_file env st fp).1 fp))))) := by
  unfold get_file_content
  rw [habs]
  dsimp only
  rcases hg : get_last_rev_for_file env st fp with ⟨lrev, st1⟩
  have hst := lrev_stable env st fp
  rw [hg] at hst hptr
  dsimp only at hst hptr ⊢
  simp only [Bool.not_true, Bool.false_eq_true, if_false, hptr, if_true, hst]

/-- Counterexample to C7 as stated: the code returns the target's content
at `c3^` (`OLD-CONTENT`), whereas resolving the target `a/new.py` "the same
way" — at the parent `c9^` of its own last revision — yields `NEW-CONTENT`;
the spec-following resolver returns the latter. -/
theorem c7_counterexample :
    (get_file_content envC7 gitRepo0 "a/old.py" true).1 = some "OLD-CONTENT" ∧
    pyStrip (envC7.showParent (envC7.revList "a/new.py") "a/new.py") =
      "NEW-CONTENT" ∧
    (get_file_content_specFollow envC7 gitRepo0 "a/old.py").1 =
      some "NEW-CONTENT" ∧
    ("OLD-CONTENT" : String) ≠ "NEW-CONTENT" := by
  refine ⟨?_, by decide, ?_, by decide⟩ <;> decide

/-- Witness for C7's amended theorem at the concrete history. -/
theorem c7_witness :
    (get_file_content envC7 gitRepo0 "a/old.py" true).1 =
      some (pyStrip (envC7.showParent (get_last_rev_for_file envC7 gitRepo0 "a/old.py").1
        (pyPathJoin (pyDirname "a/old.py")
          (pyStrip (envC7.showParent
            (get_last_rev_for_file envC7 gitRepo0 "a/old.py").1 "a/old.py"))))) :=
  c7_follow_redirect envC7 gitRepo0 "a/old.py" rfl (by decide)

/-! ## C10 — null-repo construction -/

/-- C10 (amended): constructed with `repo=None`, no checkout is created and
`checkoutdir` stays `None`; every subsequent access to `isgit`, the `files`
property or `exists()` raises (AttributeError from `None.endswith`).  (With
`repo=''` the constructor equally skips the checkout, but `isgit` returns
True and `files` returns a plain listing — see the counterexample.) -/
theorem c10_null_repo (env : GitEnv) (cachedir : String)
    (commit context : Option String) (rebase dhc : Bool) (fn : String) :
    initGitRepo env cachedir none commit rebase context dhc =
      .ok (nullGitRepo none commit context rebase dhc) ∧
    (nullGitRepo none commit context rebase dhc).checkoutdir = none ∧
    (nullGitRepo none commit context rebase dhc).isgit = .error .attributeError ∧
    (nullGitRepo none commit context rebase dhc).files env = .error .attributeError ∧
    (nullGitRepo none commit context rebase dhc).existsFile env fn =
      .error .attributeError :=
  ⟨rfl, rfl, rfl, rfl, rfl⟩

/-- Counterexample to C10 as stated: with the *empty-string* repo (also
falsy), `isgit` returns `.ok true` without raising, and the `files`
property returns an empty listing rather than raising. -/
theorem c10_counterexample :
    initGitRepo envC10 "cache" (some "") none true none false =
      .ok (nullGitRepo (some "") none none true false) ∧
    (nullGitRepo (some "") none none true false).isgit = .ok true ∧
    (nullGitRepo (some "") none none true false).files envC10 =
      .ok (nullGitRepo (some "") none none true false, []) :=
  ⟨rfl, rfl, rfl⟩

/-! ## C3 — property-cache staleness check -/

/-- C3 (amended): when the cached entry deserializes, its timestamp is not
behind the parent's `updated_at` **and the cached item list is non-empty**,
`load_update_fetch` returns the cached items as-is without fetching (and
rewrites nothing); consequently, starting from no cache file, two
consecutive calls with an unchanged parent timestamp fetch exactly once in
total — provided pickling is enabled, the fetched collection is non-empty
and the recorded fetch time is not behind the parent timestamp. -/
theorem c3_fresh_cache_no_refetch (flag : Bool) (env : LufEnv) (u : Int)
    (ev : List Nat)
    (hp : env.pfileExists = true)
    (hl : env.pickle = .ok u ev)
    (hts : env.repoUpdatedAt ≤ u)
    (hne : ev ≠ []) :
    load_update_fetch flag env = ⟨ev, false, none⟩ ∧
    (∀ env1 : LufEnv, env1.pfileExists = false → env1.fetched ≠ [] →
      env1.repoUpdatedAt ≤ env1.nowTime →
      (load_update_fetch true env1).fetchInvoked = true ∧
      (load_update_fetch true env1).cacheWritten =
        some (some env1.nowTime, env1.fetched) ∧
      ∀ env2 : LufEnv, env2.pfileExists = true →
        env2.pickle = .ok env1.nowTime env1.fetched →
        env2.repoUpdatedAt = env1.repoUpdatedAt →
        (load_update_fetch true env2).fetchInvoked = false ∧
        (load_update_fetch true env2).events = env1.fetched) := by
  have hemp : ∀ (l : List Nat), l ≠ [] → l.isEmpty = false := by
    intro l hl'
    cases l with
    | nil => exact absurd rfl hl'
    | cons a t => rfl
  constructor
  · unfold load_update_fetch
    rw [hp, hl]
    simp [if_neg (not_lt.mpr hts), hemp ev hne]
  · intro env1 h1p h1f h1t
    have hfetch : load_update_fetch true env1 =
        ⟨env1.fetched, true, some (some env1.nowTime, env1.fetched)⟩ := by
      unfold load_update_fetch
      rw [h1p]
      simp
    refine ⟨by rw [hfetch], by rw [hfetch], ?_⟩
    intro env2 h2p h2l h2t
    have h2 : load_update_fetch true env2 = ⟨env1.fetched, false, none⟩ := by
      unfold load_update_fetch
      rw [h2p, h2l]
      simp [if_neg (not_lt.mpr (h2t ▸ h1t)), hemp env1.fetched h1f]
    rw [h2]
    exact ⟨rfl, rfl⟩

/-- Counterexample to C3 as stated: a successfully deserialized entry with
a fresh timestamp but an *empty* item list still triggers the remote fetch
(`if update or not events:`), and the fetched items — not the cached empty
list — are returned. -/
theorem c3_counterexample :
    (load_update_fetch true lufEnvEmptyItems).fetchInvoked = true ∧
    (load_update_fetch true lufEnvEmptyItems).events = [7] := by decide

/-- Witness for C3 at concrete environments: a fresh non-empty cache is
served without fetching, and the two-call scenario fetches exactly once. -/
theorem c3_witness :
    load_update_fetch true lufEnv1 = ⟨[1, 2], false, none⟩ ∧
    (load_update_fetch true lufEnvA).fetchInvoked = true ∧
    (load_update_fetch true lufEnvA).cacheWritten = some (some 12, [4, 5]) ∧
    (load_update_fetch true lufEnvB).fetchInvoked = false ∧
    (load_update_fetch true lufEnvB).events = [4, 5] := by
  have h := c3_fresh_cache_no_refetch true lufEnv1 10 [1, 2]
    rfl rfl (by decide) (by decide)
  have h2 := h.2 lufEnvA rfl (by decide) (by decide)
  have h3 := h2.2.2 lufEnvB rfl rfl rfl
  exact ⟨h.1, h2.1, h2.2.1, h3.1, h3.2⟩

/-! ## C4 — failed sync recreates the checkout and re-enumerates files -/

/-- C4: when the rebase (or pinned-revision checkout) subprocess exits
non-zero, the checkout is destroyed and recreated (generation bumped, fresh
directory on disk), the sync reports `changed = True`, and `update`
re-enumerates the cached file list from the fresh checkout before it is
next served. -/
theorem c4_sync_failure_recreates (env : GitEnv) (r d : String)
    (cmt ctx : Option String) (lm : List (String × String)) (fc : List String)
    (ce : Option Unit) (g : Nat)
    (htar : pyEnds r ".tar.gz" = false)
    (hfail : syncFails env (mkGitSt r d cmt ctx lm fc ce g)) :
    (update_checkout env (mkGitSt r d cmt ctx lm fc ce g)).map
        (fun p => (p.1, p.2.gen, p.2.diskExists)) = .ok (true, g + 1, true) ∧
    (GitRepo.update env false (mkGitSt r d cmt ctx lm fc ce g)).map
        (fun s => (s.gen, s.diskExists, s.filesCache)) =
      .ok (g + 1, true, parseLsFiles (env.lsOut (g + 1))) := by
  unfold syncFails at hfail
  rcases cmt with _ | c
  all_goals
    unfold mkGitSt at hfail ⊢
    dsimp only at hfail
    unfold GitRepo.update manage_checkout update_checkout create_checkout
    dsimp only
  · -- no pin: git pull --rebase fails
    simp [bne_iff_ne.mpr hfail, htar, get_files, GitRepo.isgit, Except.map]
  · -- pinned revision: switch to the pin fails
    simp [bne_iff_ne.mpr hfail.1, bne_iff_ne.mpr hfail.2, htar, get_files,
      GitRepo.isgit, Except.map]

set_option maxRecDepth 4000 in
/-- Witness for C4: a failing `git pull --rebase` on a concrete mirror. -/
theorem c4_witness :
    (update_checkout envC4 (mkGitSt "https://github.com/o/r"
        "cache/github.com/o/r" none none [] [] none 0)).map
        (fun p => (p.1, p.2.gen, p.2.diskExists)) = .ok (true, 1, true) ∧
    (GitRepo.update envC4 false (mkGitSt "https://github.com/o/r"
        "cache/github.com/o/r" none none [] [] none 0)).map
        (fun s => (s.gen, s.diskExists, s.filesCache)) =
      .ok (1, true, ["a.py", "b.py"]) := by
  have h := c4_sync_failure_recreates envC4 "https://github.com/o/r"
    "cache/github.com/o/r" none none [] [] none 0 (by decide)
    (show envC4.pullRc 0 ≠ 0 by decide)
  refine ⟨h.1, ?_⟩
  rw [h.2]
  rfl

/-! ## C1 — the 304 path cannot deserialize the gzip-written cache -/

/-- C1 (code defect): non-304 fetches persist the body with
`write_gzip_json_file` (gzip-compressed, as the commits special case also
assumes when it reads the same file with `read_gzip_json_file`), but the
304 path reads the file with plain `open()` + `json.loads`.  On a 304 with
a stored etag and a gzip cache body the call therefore raises a decode
error instead of returning the cached body. -/
theorem c1_304_gzip_decode_fails (env : NetEnv) (tok cacheDir : String)
    (fuel : Nat) (st : CacheSt) (url : String) (j : Json)
    (hlen : ¬ (pySplit url '/').length < 2)
    (hnc : ((pySplit url '/')[(pySplit url '/').length - 2]! == "commits") = false)
    (hfile : fileRead st (cdfPath cacheDir url) = some (.gz j))
    (h304 : ((firstResp env tok cacheDir st url).status == 304) = true) :
    get_cached_request env tok cacheDir fuel st url =
      (st, [⟨url, condHeader tok st cacheDir url⟩], .error .jsonDecode) := by
  rw [get_cached_request, if_neg hlen]
  simp only [hnc, Bool.false_and, Bool.false_eq_true, if_false, h304,
    if_true, hfile]
  rfl

set_option maxRecDepth 10000 in
/-- Witness for C1: after a concrete 200-fetch cached `body0` as gzip, the
following 304 hit raises `jsonDecode` instead of returning `body0`. -/
theorem c1_witness :
    fileRead stAfterFirst (cdfPath "c" url0) = some (.gz body0) ∧
    get_cached_request env304 "t" "c" 1 stAfterFirst url0 =
      (stAfterFirst, [⟨url0, condHeader "t" stAfterFirst "c" url0⟩],
        .error .jsonDecode) :=
  ⟨rfl, c1_304_gzip_decode_fails env304 "t" "c" 1 stAfterFirst url0 body0
    (by decide) (by decide) rfl rfl⟩

/-! ## C6 — pagination: concatenation, key-merge, no cycle guard -/

theorem lookupKV_dictSet_self (a : List (String × Json)) (k : String) (v : Json) :
    lookupKV (dictSet a k v) k = some v := by
  unfold dictSet lookupKV
  rcases hany : a.any (fun kv => kv.1 == k) with _ | _
  · simp only [Bool.false_eq_true, if_false]
    have hnone : a.find? (fun kv => kv.1 == k) = none := by
      rw [List.find?_eq_none]
      exact List.any_eq_false.mp hany
    rw [List.find?_append, hnone]
    simp
  · simp only [if_true]
    have hpf : ((fun kv => kv.1 == k) ∘ fun kv : String × Json =>
        if kv.1 == k then (k, v) else kv) = (fun kv => kv.1 == k) := by
      funext kv
      by_cases hk : kv.1 = k <;> simp [hk]
    rw [List.find?_map, hpf]
    obtain ⟨x, hx, hk⟩ := List.any_eq_true.mp hany
    obtain ⟨y, hy⟩ : ∃ y, a.find? (fun kv => kv.1 == k) = some y := by
      cases hfind : a.find? (fun kv => kv.1 == k) with
      | some y => exact ⟨y, rfl⟩
      | none =>
        rw [List.find?_eq_none] at hfind
        exact absurd hk (hfind x hx)
    have hyk := List.find?_some hy
    rw [hy]
    have hy1 : y.1 = k := by simpa using hyk
    simp [hy1]

theorem lookupKV_dictSet_ne (a : List (String × Json)) (k k' : String)
    (v : Json) (h : k' ≠ k) :
    lookupKV (dictSet a k v) k' = lookupKV a k' := by
  unfold dictSet lookupKV
  rcases hany : a.any (fun kv => kv.1 == k) with _ | _
  · simp only [Bool.false_eq_true, if_false]
    rw [List.find?_append]
    rw [show List.find? (fun kv => kv.1 == k') [(k, v)] = none by
      simp [Ne.symm h]]
    simp
  · simp only [if_true]
    have hpf : ((fun kv => kv.1 == k') ∘ fun kv : String × Json =>
        if kv.1 == k then (k, v) else kv) = (fun kv => kv.1 == k') := by
      funext kv
      by_cases hk : kv.1 = k <;> simp [hk, Ne.symm h]
    rw [List.find?_map, hpf]
    cases hfind : a.find? (fun kv => kv.1 == k') with
    | none => rfl
    | some y =>
      have hyk := List.find?_some hfind
      have hy1 : y.1 = k' := by simpa using hyk
      simp [hy1, h]

theorem lookupKV_eq_none_of_not_mem (b : List (String × Json)) (k : String)
    (h : k ∉ b.map Prod.fst) : lookupKV b k = none := by
  unfold lookupKV
  rw [show b.find? (fun kv => kv.1 == k) = none from ?_]
  · rfl
  · rw [List.find?_eq_none]
    intro x hx hk
    exact h (by simp at hk; exact hk ▸ List.mem_map_of_mem Prod.fst hx)

theorem dictUpdate_cons (a : List (String × Json)) (x : String × Json)
    (b : List (String × Json)) :
    dictUpdate a (x :: b) = dictUpdate (dictSet a x.1 x.2) b := rfl

theorem lookupKV_dictUpdate_not_mem (a b : List (String × Json)) (k : String)
    (h : k ∉ b.map Prod.fst) :
    lookupKV (dictUpdate a b) k = lookupKV a k := by
  induction b generalizing a with
  | nil => rfl
  | cons x b ih =>
    simp only [List.map_cons, List.mem_cons, not_or] at h
    rw [dictUpdate_cons, ih (dictSet a x.1 x.2) h.2]
    exact lookupKV_dictSet_ne a x.1 k x.2 h.1

/-- Later pages overwrite earlier keys: the merged lookup prefers the
second dict's binding (for second dicts with no duplicate keys, as Python
dicts guarantee). -/
theorem lookupKV_dictUpdate (a b : List (String × Json)) (k : String)
    (h : (b.map Prod.fst).Nodup) :
    lookupKV (dictUpdate a b) k = (lookupKV b k).or (lookupKV a k) := by
  induction b generalizing a with
  | nil => rfl
  | cons x b ih =>
    rw [List.map_cons, List.nodup_cons] at h
    rw [dictUpdate_cons]
    by_cases hk : k = x.1
    · subst hk
      rw [lookupKV_dictUpdate_not_mem _ _ _ h.1, lookupKV_dictSet_self]
      rw [show lookupKV (x :: b) x.1 = some x.2 by
        unfold lookupKV; rw [List.find?_cons_of_pos _ (by simp)]; rfl]
      rfl
    · rw [ih (dictSet a x.1 x.2) h.2, lookupKV_dictSet_ne a x.1 k x.2 hk]
      rw [show lookupKV (x :: b) k = lookupKV b k by
        unfold lookupKV; rw [List.find?_cons_of_neg _ (by simp [Ne.symm hk])]]

theorem PageChain.ne_nil {env : NetEnv} {tok url : String} {bs : List Json}
    (h : PageChain env tok url bs) : bs ≠ [] := by
  cases h <;> simp

/-- List-shaped chains: `get_request` returns the concatenation of the
pages' elements in page order, given enough fuel, leaving the state as is. -/
theorem get_request_arr_chain (env : NetEnv) (tok : String) (bs : List Json)
    (url : String) (hch : PageChain env tok url bs) :
    ∀ (xss : List (List Json)), bs = xss.map Json.arr →
    ∀ (fuel : Nat) (st : CacheSt), xss.length ≤ fuel →
    (get_request env tok fuel st url).2.2 = .ok (.arr xss.flatten) := by
  induction hch with
  | last url hnx =>
    intro xss hxss fuel st hfuel
    rcases xss with _ | ⟨xs, xss'⟩
    · simp at hxss
    · rcases xss' with _ | _
      · simp only [List.map_cons, List.map_nil] at hxss
        have hbody : (env.net url (stdHeaders tok)).body = .arr xs := by
          injection hxss
        rcases fuel with _ | f
        · simp at hfuel
        · rw [get_request]
          have hrl2 : rateLimitCheck (Json.arr xs) = .ok () := rfl
          simp only [hbody, hrl2, hnx]
          simp
      · simp at hxss
  | cons url nurl bs hnx hch ih =>
    intro xss hxss fuel st hfuel
    rcases xss with _ | ⟨xs0, xss'⟩
    · simp at hxss
    · simp only [List.map_cons, List.cons.injEq] at hxss
      obtain ⟨hbody, hbs⟩ := hxss
      rcases fuel with _ | f
      · simp at hfuel
      · rw [get_request]
        have hrl : rateLimitCheck (env.net url (stdHeaders tok)).body = .ok () := by
          rw [hbody]; rfl
        simp only [hrl, hnx]
        rcases hrec : get_request env tok f st nurl with ⟨st2, tr, res⟩
        have hres : res = .ok (.arr xss'.flatten) := by
          have := ih xss' hbs f st (by simp at hfuel; omega)
          rw [hrec] at this
          exact this
        subst hres
        simp only [hrec, hbody]
        rfl

/-- Mapping-shaped chains: `get_request` returns the right-nested key-merge
of the pages, given enough fuel and no rate-limit sentinel on any page. -/
theorem get_request_obj_chain (env : NetEnv) (tok : String) (bs : List Json)
    (url : String) (hch : PageChain env tok url bs) :
    ∀ (kvss : List (List (String × Json))), bs = kvss.map Json.obj →
    (∀ kvs ∈ kvss, rateLimitCheck (.obj kvs) = .ok ()) →
    ∀ (fuel : Nat) (st : CacheSt), kvss.length ≤ fuel →
    (get_request env tok fuel st url).2.2 = .ok (.obj (chainMerge kvss)) := by
  induction hch with
  | last url hnx =>
    intro kvss hkvss hnorl fuel st hfuel
    rcases kvss with _ | ⟨kvs, kvss'⟩
    · simp at hkvss
    · rcases kvss' with _ | _
      · simp only [List.map_cons, List.map_nil] at hkvss
        have hbody : (env.net url (stdHeaders tok)).body = .obj kvs := by
          injection hkvss
        rcases fuel with _ | f
        · simp at hfuel
        · rw [get_request]
          have hrl2 : rateLimitCheck (Json.obj kvs) = .ok () := hnorl kvs (by simp)
          simp only [hbody, hrl2, hnx]
          rfl
      · simp at hkvss
  | cons url nurl bs hnx hch ih =>
    intro kvss hkvss hnorl fuel st hfuel
    rcases kvss with _ | ⟨kvs0, kvss'⟩
    · simp at hkvss
    · simp only [List.map_cons, List.cons.injEq] at hkvss
      obtain ⟨hbody, hbs⟩ := hkvss
      rcases fuel with _ | f
      · simp at hfuel
      · rw [get_request]
        have hrl : rateLimitCheck (env.net url (stdHeaders tok)).body = .ok () := by
          rw [hbody]; exact hnorl kvs0 (by simp)
        simp only [hrl, hnx]
        rcases hrec : get_request env tok f st nurl with ⟨st2, tr, res⟩
        have hres : res = .ok (.obj (chainMerge kvss')) := by
          have := ih kvss' hbs (fun kvs hk => hnorl kvs (by simp [hk])) f st
            (by simp at hfuel; omega)
          rw [hrec] at this
          exact this
        subst hres
        simp only [hrec, hbody]
        have hne : kvss' ≠ [] := by
          intro he
          exact PageChain.ne_nil hch (by rw [hbs, he]; rfl)
        rcases kvss' with _ | ⟨kvs1, kvss''⟩
        · exact absurd rfl hne
        · rfl

/-- A circular `next` chain makes the recursion diverge for every fuel
bound (the source has no cycle guard). -/
theorem get_request_cycle (tok : String) :
    ∀ (fuel : Nat) (st : CacheSt) (url : String),
    (get_request cycEnv tok fuel st url).2.2 = .error .fuelOut := by
  intro fuel
  induction fuel with
  | zero => intro st url; rfl
  | succ f ih =>
    intro st url
    rw [get_request]
    have hb : rateLimitCheck (cycEnv.net url (stdHeaders tok)).body = .ok () := rfl
    have hn : (cycEnv.net url (stdHeaders tok)).next =
        some (if url == "A" then "B" else "A") := rfl
    simp only [hb, hn]
    rcases hrec : get_request cycEnv tok f st (if url == "A" then "B" else "A")
      with ⟨st2, tr, res⟩
    have hres : res = .error .fuelOut := by
      have := ih st (if url == "A" then "B" else "A")
      rw [hrec] at this
      exact this
    subst hres
    simp only [hrec]

/-- First-page pagination inside `get_cached_request`: a list-shaped page
followed by a list-shaped chain of next pages concatenates in page order. -/
theorem get_cached_request_arr_pagination (env : NetEnv) (tok cacheDir : String)
    (fuel : Nat) (st : CacheSt) (url nurl : String) (xs0 : List Json)
    (xss : List (List Json))
    (hlen : ¬ (pySplit url '/').length < 2)
    (hnc : ¬ (((pySplit url '/')[(pySplit url '/').length - 2]! == "commits")
              && fileExists st (cdfPath cacheDir url)) = true)
    (h304 : ((firstResp env tok cacheDir st url).status == 304) = false)
    (hbody : (firstResp env tok cacheDir st url).body = .arr xs0)
    (hnx : (firstResp env tok cacheDir st url).next = some nurl)
    (hch : PageChain env tok nurl (xss.map Json.arr))
    (hfuel : xss.length ≤ fuel) :
    (get_cached_request env tok cacheDir fuel st url).2.2 =
      .ok (.arr (xs0 ++ xss.flatten)) := by
  rw [get_cached_request, if_neg hlen, if_neg hnc]
  have hrl : rateLimitCheck (Json.arr xs0) = .ok () := rfl
  simp only [h304, Bool.false_eq_true, if_false, hbody, hrl, hnx]
  rcases hrec : get_request env tok fuel
      (metaSet (fileWrite st (cdfPath cacheDir url) (Blob.gz (Json.arr xs0))) url
        ⟨(firstResp env tok cacheDir st url).etag, cdfPath cacheDir url⟩) nurl
    with ⟨st3, tr, res⟩
  have hres : res = .ok (.arr xss.flatten) := by
    have := get_request_arr_chain env tok _ nurl hch xss rfl fuel
      (metaSet (fileWrite st (cdfPath cacheDir url) (Blob.gz (Json.arr xs0))) url
        ⟨(firstResp env tok cacheDir st url).etag, cdfPath cacheDir url⟩) hfuel
    rw [hrec] at this
    exact this
  subst hres
  simp only [hrec]
  rfl

/-- C6: pagination follows `next` links recursively and merges pages —
list-shaped bodies concatenate in page order, mapping-shaped bodies merge
key-by-key with later pages overwriting earlier keys on conflict; the
recursion has no cycle guard, so a circular `next` chain never terminates
(exhausts any fuel bound); the same first-page merge happens in
`get_cached_request`. -/
theorem c6_pagination_merge :
    (∀ env tok bs url, PageChain env tok url bs →
      ∀ xss : List (List Json), bs = xss.map Json.arr →
      ∀ fuel st, xss.length ≤ fuel →
      (get_request env tok fuel st url).2.2 = .ok (.arr xss.flatten)) ∧
    (∀ env tok bs url, PageChain env tok url bs →
      ∀ kvss : List (List (String × Json)), bs = kvss.map Json.obj →
      (∀ kvs ∈ kvss, rateLimitCheck (.obj kvs) = .ok ()) →
      ∀ fuel st, kvss.length ≤ fuel →
      (get_request env tok fuel st url).2.2 = .ok (.obj (chainMerge kvss))) ∧
    (∀ a b k, (b.map Prod.fst).Nodup →
      lookupKV (dictUpdate a b) k = (lookupKV b k).or (lookupKV a k)) ∧
    (∀ tok fuel st url,
      (get_request cycEnv tok fuel st url).2.2 = .error .fuelOut) ∧
    (∀ env tok cacheDir fuel st url nurl (xs0 : List Json)
        (xss : List (List Json)),
      ¬ (pySplit url '/').length < 2 →
      ¬ (((pySplit url '/')[(pySplit url '/').length - 2]! == "commits")
          && fileExists st (cdfPath cacheDir url)) = true →
      ((firstResp env tok cacheDir st url).status == 304) = false →
      (firstResp env tok cacheDir st url).body = .arr xs0 →
      (firstResp env tok cacheDir st url).next = some nurl →
      PageChain env tok nurl (xss.map Json.arr) →
      xss.length ≤ fuel →
      (get_cached_request env tok cacheDir fuel st url).2.2 =
        .ok (.arr (xs0 ++ xss.flatten))) :=
  ⟨fun env tok bs url hch => get_request_arr_chain env tok bs url hch,
   fun env tok bs url hch => get_request_obj_chain env tok bs url hch,
   lookupKV_dictUpdate,
   get_request_cycle,
   fun env tok cacheDir fuel st url nurl xs0 xss h1 h2 h3 h4 h5 h6 h7 =>
     get_cached_request_arr_pagination env tok cacheDir fuel st url nurl
       xs0 xss h1 h2 h3 h4 h5 h6 h7⟩

set_option maxRecDepth 10000 in
/-- Witness for C6 at concrete two-page chains: concatenation, later-page
key overwrite, fuel exhaustion on the circular chain, and the cached entry
point. -/
theorem c6_witness :
    (get_request env6 "t" 2 emptyCache "u1").2.2 =
      .ok (.arr [.num 1, .num 2, .num 3]) ∧
    (get_request env6d "t" 2 emptyCache "u1").2.2 =
      .ok (.obj [("a", .num 1), ("b", .num 9), ("c", .num 3)]) ∧
    lookupKV (dictUpdate [("x", .num 0)] [("x", .num 5)]) "x" = some (.num 5) ∧
    (get_request cycEnv "t" 7 emptyCache "A").2.2 = .error .fuelOut ∧
    (get_cached_request envPag "t" "c" 2 emptyCache url0).2.2 =
      .ok (.arr [.num 1, .num 2]) := by
  have h := c6_pagination_merge
  refine ⟨?_, ?_, ?_, h.2.2.2.1 "t" 7 emptyCache "A", ?_⟩
  · exact h.1 env6 "t" _ "u1"
      (PageChain.cons "u1" "u2" _ rfl (PageChain.last "u2" rfl))
      [[.num 1, .num 2], [.num 3]] rfl 2 emptyCache (by decide)
  · exact h.2.1 env6d "t" _ "u1"
      (PageChain.cons "u1" "u2" _ rfl (PageChain.last "u2" rfl))
      [[("a", .num 1), ("b", .num 2)], [("b", .num 9), ("c", .num 3)]] rfl
      (by intro kvs hk
          simp only [List.mem_cons, List.not_mem_nil, or_false] at hk
          rcases hk with h' | h' <;> subst h' <;> rfl)
      2 emptyCache (by decide)
  · exact h.2.2.1 [("x", .num 0)] [("x", .num 5)] "x" (by simp)
  · exact h.2.2.2.2 envPag "t" "c" 2 emptyCache url0 "u2" [.num 1] [[.num 2]]
      (by decide) (by decide) rfl rfl rfl (PageChain.last "u2" rfl) (by decide)

end Ansibullbot
